import Mathlib

/-!
Shallow embedding of `scripts/pull_cards.py`, the one-shot ETL script that
scrapes a wiki card table, derives per-card fields and downloads icon images.

Python strings are modelled as `String`/`List Char`; the `requests` network
layer is modelled by an environment `String → FetchOutcome`, the filesystem by
an association list `FS`; a raised Python exception is `Except.error ()`.
-/

/-- Character class of the `re` module's whitespace `\s` (and of `str.strip`
and `str.split`), restricted to the ASCII range actually occurring here. -/
def pyIsSpace (c : Char) : Bool :=
  c = ' ' || c = '\t' || c = '\n' || c = '\r' || c = '\x0b' || c = '\x0c'

/-- Maximal whitespace run at the front of a list and the remainder. -/
def wsTakePy : List Char → List Char × List Char
  | [] => ([], [])
  | c :: cs =>
    if pyIsSpace c then
      let r := wsTakePy cs
      (c :: r.1, r.2)
    else ([], c :: cs)

/-- Python `str.strip()`: remove whitespace from both ends. -/
def pyStripL (l : List Char) : List Char :=
  ((l.dropWhile pyIsSpace).reverse.dropWhile pyIsSpace).reverse

/-- Helper for `pySplitL`, accumulating the current (reversed) token. -/
def pySplitGo (cur : List Char) : List Char → List (List Char)
  | [] => if cur.isEmpty then [] else [cur.reverse]
  | c :: cs =>
    if pyIsSpace c then
      if cur.isEmpty then pySplitGo [] cs
      else cur.reverse :: pySplitGo [] cs
    else pySplitGo (c :: cur) cs

/-- Python `str.split()` with no argument: split on whitespace runs, dropping
empty pieces. -/
def pySplitL (l : List Char) : List (List Char) := pySplitGo [] l

/-- Token test of `part in ['I', 'II', 'III']` in the tier-scanning loop. -/
def isRomanTok (t : List Char) : Bool :=
  t = ['I'] || t = ['I', 'I'] || t = ['I', 'I', 'I']

/-- The dict `roman_to_num` of the script (0 for a non-roman token). -/
def romanVal (t : List Char) : Nat :=
  if t = ['I'] then 1 else if t = ['I', 'I'] then 2 else if t = ['I', 'I', 'I'] then 3 else 0

/-- Token test of `part in ['α', 'β', 'γ']` in the turns-scanning loop. -/
def isGreekTok (t : List Char) : Bool :=
  t = ['α'] || t = ['β'] || t = ['γ']

/-- The dict `greek_to_turns` of the script (0 for a non-greek token). -/
def greekVal (t : List Char) : Nat :=
  if t = ['α'] then 1 else if t = ['β'] then 2 else if t = ['γ'] then 3 else 0

/-- The first `for part in skill_parts` loop of
`extract_first_skill_display_name`: first roman-numeral token wins, 0 if none. -/
def firstRoman : List (List Char) → Nat
  | [] => 0
  | t :: rest => if isRomanTok t then romanVal t else firstRoman rest

/-- The second `for part in skill_parts` loop: first greek-letter token wins. -/
def firstGreek : List (List Char) → Nat
  | [] => 0
  | t :: rest => if isGreekTok t then greekVal t else firstGreek rest

/-- The script's `extract_first_skill_display_name`. -/
def extract_first_skill_display_name (first_skill : String) : String :=
  if first_skill = "" then ""
  else
    let parts := pySplitL first_skill.data
    let tier := firstRoman parts
    let turns := firstGreek parts
    if turns > 0 then
      "Tier=" ++ toString tier ++ " (" ++ toString turns ++
        " Turn" ++ (if turns > 1 then "s" else "") ++ ")"
    else
      "Tier=" ++ toString tier

/-- Left-to-right non-overlapping substitution scan of the `re.sub` calls:
at each position try the matcher; on a match emit the replacement char and
resume after the consumed text, otherwise keep the char and move on.  Every
matcher used below consumes at least one character, so fuel = input length
suffices. -/
def scanSub (m : List Char → Option (List Char)) (rep : Char) : Nat → List Char → List Char
  | _, [] => []
  | 0, l => l
  | fuel + 1, c :: cs =>
    match m (c :: cs) with
    | some rest => rep :: scanSub m rep fuel rest
    | none => c :: scanSub m rep fuel cs

/-- Up to `n` further capital-I characters (the greedy `I{1,3}` after its
first mandatory `I`). -/
def takeIs : Nat → List Char → List Char × List Char
  | 0, l => ([], l)
  | n + 1, l =>
    match l with
    | 'I' :: t =>
      let r := takeIs n t
      ('I' :: r.1, r.2)
    | _ => ([], l)

/-- Matcher of the pattern `\s+I{1,3}\s*` at the head of the list; returns the
remainder after the match. -/
def matchRomanAt (l : List Char) : Option (List Char) :=
  let w := wsTakePy l
  if w.1.isEmpty then none
  else
    match w.2 with
    | 'I' :: r2 => some (wsTakePy (takeIs 2 r2).2).2
    | _ => none

/-- Character class `[αβγ]`. -/
def isGreekChar (c : Char) : Bool := c = 'α' || c = 'β' || c = 'γ'

/-- Matcher of the pattern `\s*[αβγ]\s*` at the head of the list. -/
def matchGreekAt (l : List Char) : Option (List Char) :=
  let w := wsTakePy l
  match w.2 with
  | c :: r2 => if isGreekChar c then some (wsTakePy r2).2 else none
  | [] => none

/-- Maximal run of ASCII digits (`\d+`). -/
def digitsTake : List Char → List Char × List Char
  | [] => ([], [])
  | c :: cs =>
    if c.isDigit then
      let r := digitsTake cs
      (c :: r.1, r.2)
    else ([], c :: cs)

/-- Matcher of the pattern `\s*Lv\.\s*\d+\s*` at the head of the list. -/
def matchLvAt (l : List Char) : Option (List Char) :=
  match (wsTakePy l).2 with
  | 'L' :: 'v' :: '.' :: r2 =>
    let d := digitsTake (wsTakePy r2).2
    if d.1.isEmpty then none else some (wsTakePy d.2).2
  | _ => none

/-- Helper for whitespace-run collapse: the flag records whether we are inside
a run already emitted as one replacement character. -/
def collapseGo (rep : Char) (inRun : Bool) : List Char → List Char
  | [] => []
  | c :: cs =>
    if pyIsSpace c then
      if inRun then collapseGo rep true cs
      else rep :: collapseGo rep true cs
    else c :: collapseGo rep false cs

/-- ASCII letter or digit (the `a-zA-Z0-9` ranges of the script's regexes). -/
def isAlnumAscii (c : Char) : Bool :=
  ('a' ≤ c && c ≤ 'z') || ('A' ≤ c && c ≤ 'Z') || ('0' ≤ c && c ≤ '9')

/-- The script's `extract_first_skill_icon`: strip tier/turn/`Lv. n` tokens,
collapse and trim whitespace, drop characters outside `[a-zA-Z0-9\s]`, turn
whitespace runs into underscores, and wrap in the fixed path pieces. -/
def extract_first_skill_icon (first_skill : String) : String :=
  if first_skill = "" then ""
  else
    let l1 := scanSub matchRomanAt ' ' first_skill.data.length first_skill.data
    let l2 := scanSub matchGreekAt ' ' l1.length l1
    let l3 := scanSub matchLvAt ' ' l2.length l2
    let l4 := pyStripL (collapseGo ' ' false l3)
    let l5 := l4.filter (fun c => isAlnumAscii c || pyIsSpace c)
    let l6 := collapseGo '_' false l5
    "data/skill_icons/" ++ (⟨l6⟩ : String) ++ "_icon.png"

/-- Rest of the list after a closing double quote that satisfies the `"$`
tail of the name regex: lazily scan for the first `"` that sits at the very
end of the string (or just before a terminal newline, as Python `$` allows),
returning the characters consumed into the second capture group.  A newline
cannot be part of the group (`.` does not match it). -/
def findClose : List Char → Option (List Char)
  | [] => none
  | [c] => if c = '"' then some [] else none
  | c :: c2 :: rest =>
    if c = '"' && c2 = '\n' && rest.isEmpty then some []
    else if c = '\n' then none
    else (findClose (c2 :: rest)).map (fun g => c :: g)

/-- Match attempt at one position: a nonempty whitespace run (`\s+`), the
opening quote, then `findClose` for the second group and the `"$` tail. -/
def pnAttempt (l : List Char) : Option (List Char) :=
  let w := wsTakePy l
  if w.1.isEmpty then none
  else
    match w.2 with
    | '"' :: r3 => findClose r3
    | _ => none

/-- Backtracking search for `re.search(r'^(.*?)\s+"(.*?)"$', s)`: try each
prefix length for the lazy first group (which cannot contain a newline), at
each one demand a nonempty whitespace run followed by the opening quote, then
close via `findClose`.  Returns the two capture groups. -/
def pnSearch (acc : List Char) : List Char → Option (List Char × List Char)
  | [] => none
  | c :: cs =>
    match pnAttempt (c :: cs) with
    | some g2 => some (acc, g2)
    | none => if c = '\n' then none else pnSearch (acc ++ [c]) cs

/-- Python `re.split('"', s)`: pieces between the double quotes. -/
def splitQuote : List Char → List (List Char)
  | [] => [[]]
  | c :: cs =>
    let r := splitQuote cs
    if c = '"' then [] :: r
    else
      match r with
      | h :: t => (c :: h) :: t
      | [] => [[c]]

/-- The script's `parse_name` on `List Char`: regex attempt, then the
`re.split` fallback taking the stripped first two pieces. -/
def parseNameL (s : List Char) : List Char × List Char :=
  match pnSearch [] s with
  | some r => r
  | none =>
    let parts := splitQuote s
    (pyStripL (parts.headD []),
     match parts.get? 1 with
     | some p => pyStripL p
     | none => [])

/-- The script's `parse_name`. -/
def parse_name (s : String) : String × String :=
  let r := parseNameL s.data
  (⟨r.1⟩, ⟨r.2⟩)

/-- Abstraction of one `<table>` soup element as seen through the accessors
used by `get_cards_table_soup`: the `th` texts found inside a `thead` element
(if one exists), the `th` texts of the first `tr` of a `tbody` element (outer
option: is there a tbody, inner option: does it contain a `tr`), and the `th`
texts of the table's first `tr` overall (if any `tr` exists). -/
structure HTable where
  thead : Option (List String)
  tbodyFirstRow : Option (Option (List String))
  firstRow : Option (List String)
deriving DecidableEq

/-- The `required` header set of `get_cards_table_soup`. -/
def requiredHeaders : List String :=
  ["Name", "Rarity", "Attribute", "Max Influence", "Max Defense", "Max Skill(s)"]

/-- The three header-discovery strategies of `get_cards_table_soup`, in the
script's priority order, each tried only when the previous produced an empty
(falsy) list. -/
def discoverHeaders (t : HTable) : List String :=
  let h1 := match t.thead with
            | some hs => hs
            | none => []
  if h1 ≠ [] then h1
  else
    let h2 := match t.tbodyFirstRow with
              | some (some hs) => hs
              | _ => []
    if h2 ≠ [] then h2
    else
      match t.firstRow with
      | some hs => hs
      | none => []

/-- The selection test `headers and required.issubset(set(headers))`. -/
def tableMatches (t : HTable) : Bool :=
  let hs := discoverHeaders t
  !hs.isEmpty && requiredHeaders.all (fun r => decide (r ∈ hs))

/-- The script's `get_cards_table_soup`, given the document's tables in
document order; `none` models the final `raise RuntimeError`. -/
def get_cards_table_soup (doc : List HTable) : Option HTable :=
  doc.find? tableMatches

/-- Fetch outcomes of a `requests.get` call: a completed response with its
`ok` flag and body bytes, or a raised exception (timeout, connection error). -/
inductive FetchOutcome where
  | resp (ok : Bool) (content : List Nat)
  | exc
deriving DecidableEq

/-- Filesystem: association list from path to file bytes. -/
abbrev FS := List (String × List Nat)

/-- Lookup of a path in the modelled filesystem (`os.path.exists` plus the
file's current bytes). -/
def lookupFS : FS → String → Option (List Nat)
  | [], _ => none
  | (p, c) :: t, q => if p = q then some c else lookupFS t q

/-- Remainder of `l` after the prefix `pat`, when `pat` is a prefix. -/
def stripPre (pat l : List Char) : Option (List Char) :=
  match pat, l with
  | [], rest => some rest
  | _ :: _, [] => none
  | p :: ps, c :: cs => if p = c then stripPre ps cs else none

/-- Python `pat in s` substring test. -/
def containsSubL (pat : List Char) : List Char → Bool
  | [] => (stripPre pat []).isSome
  | c :: cs => (stripPre pat (c :: cs)).isSome || containsSubL pat cs

/-- Python `s.replace(pat, rep)` for a nonempty `pat`: leftmost
non-overlapping replacement; fuel = input length suffices since every match
consumes at least one character. -/
def replaceAllL (pat rep : List Char) : Nat → List Char → List Char
  | _, [] => []
  | 0, l => l
  | fuel + 1, c :: cs =>
    match stripPre pat (c :: cs) with
    | some rest => rep ++ replaceAllL pat rep fuel rest
    | none => c :: replaceAllL pat rep fuel cs

/-- Python `os.path.join` for the flat POSIX paths used here. -/
def pathJoin (a b : String) : String :=
  if b.data.head? = some '/' then b else a ++ "/" ++ b

/-- The URL-width adjustment at the top of `download_icon`. -/
def addWidth (u : String) : String :=
  if containsSubL "width=".data u.data then u
  else u ++ (if containsSubL "?".data u.data then "&" else "?") ++ "width=50"

/-- The local path computed inside `download_icon`:
`os.path.join(IMG_DIR, filename).replace("_png", ".png")`. -/
def computeLocalPath (filename : String) : String :=
  ⟨replaceAllL "_png".data ".png".data (pathJoin "data/icons" filename).data.length
    (pathJoin "data/icons" filename).data⟩

instance {ε α : Type} [DecidableEq ε] [DecidableEq α] : DecidableEq (Except ε α) := fun a b =>
  match a, b with
  | .error e, .error f =>
    if h : e = f then .isTrue (congrArg Except.error h)
    else .isFalse (fun hh => h (Except.error.inj hh))
  | .ok x, .ok y =>
    if h : x = y then .isTrue (congrArg Except.ok h)
    else .isFalse (fun hh => h (Except.ok.inj hh))
  | .error _, .ok _ => .isFalse (fun hh => Except.noConfusion hh)
  | .ok _, .error _ => .isFalse (fun hh => Except.noConfusion hh)

/-- Result of one `download_icon` call: the returned value (`error` models an
uncaught exception escaping the function, `ok none` the `return None` branch,
`ok (some p)` the returned path), the filesystem afterwards, and the list of
URLs actually requested over the network during the call. -/
structure DLResult where
  result : Except Unit (Option String)
  fs : FS
  fetched : List String
deriving DecidableEq

/-- The script's `download_icon`: adjust the URL, perform the request
unconditionally, and on an `ok` response compute the local path, write the
body only when no file exists there yet, and return the path; on a non-ok
response return `None`; a raised exception propagates. -/
def download_icon (env : String → FetchOutcome) (fs : FS) (img_url filename : String) :
    DLResult :=
  let u := addWidth img_url
  match env u with
  | .exc => ⟨.error (), fs, [u]⟩
  | .resp ok content =>
    if ok then
      let path := computeLocalPath filename
      match lookupFS fs path with
      | some _ => ⟨.ok (some path), fs, [u]⟩
      | none => ⟨.ok (some path), (path, content) :: fs, [u]⟩
    else ⟨.ok none, fs, [u]⟩

/-- First `<img>` element of a cell, through the attributes the script reads;
`none` in a field models a missing attribute, `some ""` an empty one (falsy in
the script's truthiness tests). -/
structure Img where
  alt : Option String
  src : Option String
deriving DecidableEq

/-- One `<td>` cell, through the soup accessors used by the row loop:
`text` is the `extract_text` result, `img` the first `<img>` descendant,
`firstBold` the stripped text of the first `<b>` descendant. -/
structure SCell where
  text : String
  img : Option Img
  firstBold : Option String
deriving DecidableEq

/-- The script's `rarity_from_cell`: prefer a truthy `alt` attribute of the
cell's image, stripped; otherwise the cell's visible text. -/
def rarity_from_cell (td : SCell) : String :=
  match td.img with
  | some i =>
    match i.alt with
    | some a => if a = "" then td.text else ⟨pyStripL a.data⟩
    | none => td.text
  | none => td.text

/-- The script's `extract_first_skill`: text of the first `<b>` run, else
empty. -/
def extract_first_skill (td : SCell) : String :=
  match td.firstBold with
  | some b => b
  | none => ""

/-- Characters kept verbatim by the `safe_name` regex `[^a-zA-Z0-9_-]+`. -/
def isSafeChar (c : Char) : Bool := isAlnumAscii c || c = '_' || c = '-'

/-- Replace each maximal run of unsafe characters by a single underscore
(`re.sub(r'[^a-zA-Z0-9_-]+', "_", s)`); the flag records an open run. -/
def safeSubGo (inRun : Bool) : List Char → List Char
  | [] => []
  | c :: cs =>
    if isSafeChar c then c :: safeSubGo false cs
    else if inRun then safeSubGo true cs
    else '_' :: safeSubGo true cs

/-- The `safe_name` computation of the row loop, applied to
`f"{character}_{card}.png"`. -/
def safeName (character card : String) : String :=
  ⟨safeSubGo false (character ++ "_" ++ card ++ ".png").data⟩

/-- The module-level `URL` constant. -/
def pageURL : String := "https://tot.wiki/wiki/Cards"

/-- One produced record, with the fields the script collects per row. -/
structure CardRecord where
  cardName : String
  character : String
  rarity : String
  attributeText : String
  firstSkill : String
  firstSkillIcon : String
  firstSkillDisplayName : String
  iconUrl : Option String
  localIconPath : Option String
deriving DecidableEq

/-- Index of the last occurrence of `h`, starting the count at `n`; models the
dict comprehension `{h: i for i, h in enumerate(headers)}`, where a later
duplicate overwrites the earlier index. -/
def lastIdxAux : List String → String → Nat → Option Nat
  | [], _, _ => none
  | x :: xs, h, n =>
    match lastIdxAux xs h (n + 1) with
    | some i => some i
    | none => if x = h then some n else none

/-- The lookup `idx[h]` of the row loop (`none` models a `KeyError`). -/
def idxOf (headers : List String) (h : String) : Option Nat :=
  lastIdxAux headers h 0

/-- Number of distinct headers, i.e. `len(idx)` for the dict above. -/
def distinctCount : List String → Nat
  | [] => 0
  | h :: t => (if h ∈ t then 0 else 1) + distinctCount t

/-- Cell access `tds[idx[h]]`: `error` models the `KeyError`/`IndexError`
a missing header or out-of-range index would raise. -/
def getCell (tds : List SCell) (i : Option Nat) : Except Unit SCell :=
  match i with
  | none => .error ()
  | some i =>
    match tds.get? i with
    | some c => .ok c
    | none => .error ()

/-- Icon resolution part of the row loop: if the Name cell has an image with
a truthy `src`, join it against the page URL and invoke `download_icon`
synchronously; returns the icon URL, the local path (if any) and the
filesystem afterwards, or propagates a raised exception. -/
def iconStep (uj : String → String → String) (env : String → FetchOutcome)
    (fs : FS) (nameCell : SCell) (character card : String) :
    Except Unit (Option String × Option String × FS) :=
  match nameCell.img with
  | none => .ok (none, none, fs)
  | some img =>
    match img.src with
    | none => .ok (none, none, fs)
    | some s =>
      if s = "" then .ok (none, none, fs)
      else
        let iu := uj pageURL s
        let d := download_icon env fs iu (safeName character card)
        match d.result with
        | .error e => .error e
        | .ok lp => .ok (some iu, lp, d.fs)

/-- One iteration of the `for tr in rows` loop of `main`, for the row with
data cells `tds`, given the table `headers`, a URL-join function `uj`
(abstracting `requests.compat.urljoin`), the network environment and the
filesystem.  `error` models an exception escaping the iteration, `ok none` a
`continue`, `ok (some rec, fs2)` the record appended and the filesystem after
the icon download. -/
def processRow (uj : String → String → String) (env : String → FetchOutcome)
    (headers : List String) (fs : FS) (tds : List SCell) :
    Except Unit (Option CardRecord × FS) :=
  if tds.length < distinctCount headers then .ok (none, fs)
  else
    match getCell tds (idxOf headers "Name") with
    | .error e => .error e
    | .ok nameCell =>
      let pc := parse_name nameCell.text
      if pc.2 = "" then .ok (none, fs)
      else
        match getCell tds (idxOf headers "Rarity") with
        | .error e => .error e
        | .ok rarityCell =>
          match getCell tds (idxOf headers "Attribute") with
          | .error e => .error e
          | .ok attrCell =>
            match getCell tds (idxOf headers "Max Skill(s)") with
            | .error e => .error e
            | .ok skillCell =>
              let first_skill := extract_first_skill skillCell
              match iconStep uj env fs nameCell pc.1 pc.2 with
              | .error e => .error e
              | .ok (iu, lp, fs2) =>
                .ok (some
                  { cardName := pc.2
                    character := pc.1
                    rarity := rarity_from_cell rarityCell
                    attributeText := attrCell.text
                    firstSkill := first_skill
                    firstSkillIcon := extract_first_skill_icon first_skill
                    firstSkillDisplayName := extract_first_skill_display_name first_skill
                    iconUrl := iu
                    localIconPath := lp }, fs2)

/-- Definition following the WORDS OF CLAIM C4 (not the source), for
comparison with the source-derived `parse_name`: the card title is the
content between the last pair of double quotes at the end of the string,
everything before it, whitespace-trimmed, is the character name; with no
trailing quoted segment, fall back to splitting on the first quote character,
the title being empty if no second piece exists. -/
def parse_name_claim (s : String) : String × String :=
  match s.data.reverse with
  | '"' :: rest =>
    if rest.contains '"' then
      let titleRev := rest.takeWhile (fun c => c ≠ '"')
      let beforeRev := rest.drop (titleRev.length + 1)
      (⟨pyStripL beforeRev.reverse⟩, ⟨titleRev.reverse⟩)
    else
      let parts := splitQuote s.data
      (⟨pyStripL (parts.headD [])⟩,
       match parts.get? 1 with
       | some p => ⟨pyStripL p⟩
       | none => "")
  | _ =>
    let parts := splitQuote s.data
    (⟨pyStripL (parts.headD [])⟩,
     match parts.get? 1 with
     | some p => ⟨pyStripL p⟩
     | none => "")

/-! Helper lemmas about the token-scanning loops. -/

theorem firstRoman_eq_findD (ts : List (List Char)) :
    firstRoman ts = ((ts.find? isRomanTok).map romanVal).getD 0 := by
  induction ts with
  | nil => rfl
  | cons t rest ih =>
    by_cases h : isRomanTok t = true
    · simp [firstRoman, h, List.find?_cons_of_pos]
    · simp only [Bool.not_eq_true] at h
      simp [firstRoman, h, List.find?_cons_of_neg, ih]

theorem firstGreek_eq_findD (ts : List (List Char)) :
    firstGreek ts = ((ts.find? isGreekTok).map greekVal).getD 0 := by
  induction ts with
  | nil => rfl
  | cons t rest ih =>
    by_cases h : isGreekTok t = true
    · simp [firstGreek, h, List.find?_cons_of_pos]
    · simp only [Bool.not_eq_true] at h
      simp [firstGreek, h, List.find?_cons_of_neg, ih]

theorem greekVal_pos (u : List Char) (h : isGreekTok u = true) : 0 < greekVal u := by
  simp only [isGreekTok, Bool.or_eq_true, decide_eq_true_eq] at h
  rcases h with (h | h) | h <;> subst h <;> decide

theorem pySplitL_empty : pySplitL ("".data) = [] := rfl

/-- C5: for raw skill labels whose whitespace-separated tokens contain exactly
one roman-numeral token and no greek-letter token,
`extract_first_skill_display_name` returns `Tier=<n>` with no turns part; for
labels containing both a roman-numeral and a greek-letter token it returns
`Tier=<n> (<m> Turn[s])` with the plural `s` present iff `m > 1`; and for the
empty label it returns the empty string. -/
theorem extract_first_skill_display_name_spec (s : String) :
    (∀ t, (pySplitL s.data).find? isRomanTok = some t →
       (pySplitL s.data).countP isRomanTok = 1 →
       (∀ u ∈ pySplitL s.data, isGreekTok u = false) →
       extract_first_skill_display_name s = "Tier=" ++ toString (romanVal t)) ∧
    (∀ t u, (pySplitL s.data).find? isRomanTok = some t →
       (pySplitL s.data).find? isGreekTok = some u →
       extract_first_skill_display_name s =
         "Tier=" ++ toString (romanVal t) ++ " (" ++ toString (greekVal u) ++
           " Turn" ++ (if greekVal u > 1 then "s" else "") ++ ")") ∧
    (s = "" → extract_first_skill_display_name s = "") := by
  refine ⟨?_, ?_, ?_⟩
  · intro t hfind _ hng
    have hs : ¬ s = "" := by
      intro h
      subst h
      simp [pySplitL, pySplitGo] at hfind
    have hgreek : (pySplitL s.data).find? isGreekTok = none := by
      rw [List.find?_eq_none]
      intro x hx
      simp [hng x hx]
    simp only [extract_first_skill_display_name, if_neg hs]
    rw [firstGreek_eq_findD, firstRoman_eq_findD, hfind, hgreek]
    rfl
  · intro t u hr hg
    have hs : ¬ s = "" := by
      intro h
      subst h
      simp [pySplitL, pySplitGo] at hr
    have hpos : 0 < greekVal u :=
      greekVal_pos u (List.find?_some hg)
    simp only [extract_first_skill_display_name, if_neg hs]
    rw [firstGreek_eq_findD, firstRoman_eq_findD, hr, hg]
    simp [hpos]
  · intro h
    subst h
    rfl

/-- Witness for C5 at the labels from the script's own docstring. -/
theorem extract_first_skill_display_name_spec_witness :
    extract_first_skill_display_name "Preemptive Strike III" = "Tier=3" ∧
    extract_first_skill_display_name "Bait & Lure γ I" = "Tier=1 (3 Turns)" ∧
    extract_first_skill_display_name "" = "" := by
  refine ⟨?_, ?_, ?_⟩
  · have h := (extract_first_skill_display_name_spec "Preemptive Strike III").1
      ['I', 'I', 'I'] (by decide) (by decide) (by decide)
    exact h
  · have h := (extract_first_skill_display_name_spec "Bait & Lure γ I").2.1
      ['I'] ['γ'] (by decide) (by decide)
    exact h
  · exact (extract_first_skill_display_name_spec "").2.2 rfl

/-- Helper: a prefix without roman tokens does not affect the tier scan. -/
theorem firstRoman_append_none (pre rest : List (List Char))
    (h : ∀ x ∈ pre, isRomanTok x = false) :
    firstRoman (pre ++ rest) = firstRoman rest := by
  induction pre with
  | nil => rfl
  | cons p ps ih =>
    have hp := h p (List.mem_cons_self p ps)
    simp only [List.cons_append, firstRoman, hp, if_neg]
    exact ih (fun x hx => h x (List.mem_cons_of_mem p hx))

/-- C8: the skill-string parser scans whitespace-separated tokens strictly
left to right, stopping at the first match per category: the tier comes from
the first token exactly equal to I, II or III (mapped to 1, 2, 3), the turns
from the first token exactly equal to α, β or γ (mapped to 1, 2, 3); a label
with several roman-numeral tokens uses only the first, and a category with no
matching token yields 0. -/
theorem skill_token_scan_first_match (s : String) :
    (firstRoman (pySplitL s.data) =
       (((pySplitL s.data).find? isRomanTok).map romanVal).getD 0) ∧
    (firstGreek (pySplitL s.data) =
       (((pySplitL s.data).find? isGreekTok).map greekVal).getD 0) ∧
    (∀ pre t post, pySplitL s.data = pre ++ t :: post →
       (∀ x ∈ pre, isRomanTok x = false) → isRomanTok t = true →
       firstRoman (pySplitL s.data) = romanVal t) ∧
    ((∀ x ∈ pySplitL s.data, isRomanTok x = false) → firstRoman (pySplitL s.data) = 0) ∧
    ((∀ x ∈ pySplitL s.data, isGreekTok x = false) → firstGreek (pySplitL s.data) = 0) ∧
    (romanVal ['I'] = 1 ∧ romanVal ['I', 'I'] = 2 ∧ romanVal ['I', 'I', 'I'] = 3) ∧
    (greekVal ['α'] = 1 ∧ greekVal ['β'] = 2 ∧ greekVal ['γ'] = 3) := by
  refine ⟨firstRoman_eq_findD _, firstGreek_eq_findD _, ?_, ?_, ?_, by decide, by decide⟩
  · intro pre t post hsplit hpre ht
    rw [hsplit, firstRoman_append_none pre _ hpre]
    simp [firstRoman, ht]
  · intro h
    rw [firstRoman_eq_findD, List.find?_eq_none.mpr (fun x hx => by simp [h x hx])]
    rfl
  · intro h
    rw [firstGreek_eq_findD, List.find?_eq_none.mpr (fun x hx => by simp [h x hx])]
    rfl

/-- Witness for C8: a label with two roman tokens uses the first; a label
with no greek token yields 0 turns. -/
theorem skill_token_scan_first_match_witness :
    firstRoman (pySplitL ("x I II").data) = 1 ∧
    firstGreek (pySplitL ("x I II").data) = 0 := by
  constructor
  · exact (skill_token_scan_first_match "x I II").2.2.1 [['x']] ['I'] [['I', 'I']]
      (by decide) (by decide) (by decide)
  · exact (skill_token_scan_first_match "x I II").2.2.2.2.1 (by decide)

/-- C6: `extract_first_skill_icon` strips the tier token, the turn token and
any `Lv. <number>` substring, collapses whitespace, removes characters that
are not letters, digits or spaces, and replaces spaces with underscores;
concretely the three spec examples produce paths ending in
`Preemptive_Strike_icon.png`, `Bait_Lure_icon.png` (ampersand dropped) and
`Indirect_Approach_icon.png`. -/
theorem extract_first_skill_icon_examples :
    extract_first_skill_icon "Preemptive Strike III"
        = "data/skill_icons/" ++ "Preemptive_Strike_icon.png" ∧
    extract_first_skill_icon "Bait & Lure γ I"
        = "data/skill_icons/" ++ "Bait_Lure_icon.png" ∧
    extract_first_skill_icon "Indirect Approach α II"
        = "data/skill_icons/" ++ "Indirect_Approach_icon.png" := by
  refine ⟨by decide, by decide, by decide⟩

/-- C10: the tier-stripping of `extract_first_skill_icon` removes a roman
numeral whenever it is preceded by whitespace, even as the prefix of a longer
word: on the label `Frozen Ice` the leading I of Ice is deleted, giving
`data/skill_icons/Frozen_ce_icon.png`. -/
theorem extract_first_skill_icon_embedded_roman :
    extract_first_skill_icon "Frozen Ice" = "data/skill_icons/Frozen_ce_icon.png" := by
  decide

/-! Helper lemmas about `download_icon`, one per branch of the source. -/

theorem download_icon_exc (env : String → FetchOutcome) (fs : FS) (url fn : String)
    (h : env (addWidth url) = FetchOutcome.exc) :
    download_icon env fs url fn = ⟨.error (), fs, [addWidth url]⟩ := by
  simp [download_icon, h]

theorem download_icon_notok (env : String → FetchOutcome) (fs : FS) (url fn : String)
    (c : List Nat) (h : env (addWidth url) = FetchOutcome.resp false c) :
    download_icon env fs url fn = ⟨.ok none, fs, [addWidth url]⟩ := by
  simp [download_icon, h]

theorem download_icon_ok_exists (env : String → FetchOutcome) (fs : FS) (url fn : String)
    (c b : List Nat) (h : env (addWidth url) = FetchOutcome.resp true c)
    (hb : lookupFS fs (computeLocalPath fn) = some b) :
    download_icon env fs url fn = ⟨.ok (some (computeLocalPath fn)), fs, [addWidth url]⟩ := by
  simp [download_icon, h, hb]

theorem download_icon_ok_new (env : String → FetchOutcome) (fs : FS) (url fn : String)
    (c : List Nat) (h : env (addWidth url) = FetchOutcome.resp true c)
    (hb : lookupFS fs (computeLocalPath fn) = none) :
    download_icon env fs url fn =
      ⟨.ok (some (computeLocalPath fn)), (computeLocalPath fn, c) :: fs, [addWidth url]⟩ := by
  simp [download_icon, h, hb]

theorem download_icon_fetched (env : String → FetchOutcome) (fs : FS) (url fn : String) :
    (download_icon env fs url fn).fetched = [addWidth url] := by
  cases h : env (addWidth url) with
  | exc => rw [download_icon_exc env fs url fn h]
  | resp ok content =>
    cases ok with
    | false => rw [download_icon_notok env fs url fn content h]
    | true =>
      cases hb : lookupFS fs (computeLocalPath fn) with
      | some b => rw [download_icon_ok_exists env fs url fn content b h hb]
      | none => rw [download_icon_ok_new env fs url fn content h hb]

/-- C9: when a file already exists at the computed local path before a
`download_icon` call, the filesystem — in particular the contents at that
path — is identical before and after the call, whatever the fetch returns. -/
theorem download_icon_preserves_existing (env : String → FetchOutcome) (fs : FS)
    (url filename : String) (b : List Nat)
    (h : lookupFS fs (computeLocalPath filename) = some b) :
    (download_icon env fs url filename).fs = fs ∧
    lookupFS (download_icon env fs url filename).fs (computeLocalPath filename) = some b := by
  have hfs : (download_icon env fs url filename).fs = fs := by
    cases he : env (addWidth url) with
    | exc => rw [download_icon_exc env fs url filename he]
    | resp ok content =>
      cases ok with
      | false => rw [download_icon_notok env fs url filename content he]
      | true => rw [download_icon_ok_exists env fs url filename content b he h]
  exact ⟨hfs, by rw [hfs]; exact h⟩

/-- Witness for C9 at a concrete filesystem holding the computed path. -/
theorem download_icon_preserves_existing_witness :
    lookupFS [("data/icons/f.png", [7])] (computeLocalPath "f.png") = some [7] ∧
    (download_icon (fun _ => FetchOutcome.resp true [1])
      [("data/icons/f.png", [7])] "u" "f.png").fs = [("data/icons/f.png", [7])] ∧
    lookupFS (download_icon (fun _ => FetchOutcome.resp true [1])
      [("data/icons/f.png", [7])] "u" "f.png").fs (computeLocalPath "f.png") = some [7] := by
  refine ⟨by decide, ?_, ?_⟩
  · exact (download_icon_preserves_existing (fun _ => FetchOutcome.resp true [1])
      [("data/icons/f.png", [7])] "u" "f.png" [7] (by decide)).1
  · exact (download_icon_preserves_existing (fun _ => FetchOutcome.resp true [1])
      [("data/icons/f.png", [7])] "u" "f.png" [7] (by decide)).2

/-- Counterexample to C1 as stated: with a file already present at the
computed local path, `download_icon` still performs the network fetch (the
fetched-URL trace is nonempty), and two calls with the same URL and filename
perform two fetches, not one. -/
theorem download_icon_skip_fetch_cex :
    lookupFS [("data/icons/f.png", [7])] (computeLocalPath "f.png") = some [7] ∧
    (download_icon (fun _ => FetchOutcome.resp true [1])
        [("data/icons/f.png", [7])] "u" "f.png").fetched = ["u?width=50"] ∧
    (download_icon (fun _ => FetchOutcome.resp true [1])
        [("data/icons/f.png", [7])] "u" "f.png").fetched ≠ [] ∧
    (download_icon (fun _ => FetchOutcome.resp true [1]) [] "u" "f.png").fetched.length +
      (download_icon (fun _ => FetchOutcome.resp true [1])
        (download_icon (fun _ => FetchOutcome.resp true [1]) [] "u" "f.png").fs
        "u" "f.png").fetched.length = 2 := by
  refine ⟨by decide, by decide, by decide, by decide⟩

/-- C1 (amended): `download_icon` performs the network fetch on every call —
exactly one fetch per call, even when a file already exists at the computed
local path; when the fetch succeeds it returns the computed path as success
and only skips the file write when a file already exists there (leaving the
filesystem unchanged); two calls with the same URL and filename perform two
fetches in total, the second returning the same path. -/
theorem download_icon_fetch_behavior (env : String → FetchOutcome) (fs : FS)
    (url filename : String) (c : List Nat)
    (hok : env (addWidth url) = FetchOutcome.resp true c) :
    (∀ (env2 : String → FetchOutcome) (fs2 : FS),
        (download_icon env2 fs2 url filename).fetched = [addWidth url]) ∧
    (download_icon env fs url filename).result = .ok (some (computeLocalPath filename)) ∧
    (∀ b, lookupFS fs (computeLocalPath filename) = some b →
        (download_icon env fs url filename).fs = fs) ∧
    (download_icon env (download_icon env fs url filename).fs url filename).result
        = .ok (some (computeLocalPath filename)) ∧
    (download_icon env fs url filename).fetched.length +
      (download_icon env (download_icon env fs url filename).fs url filename).fetched.length
        = 2 := by
  refine ⟨fun env2 fs2 => download_icon_fetched env2 fs2 url filename, ?_, ?_, ?_, ?_⟩
  · cases hb : lookupFS fs (computeLocalPath filename) with
    | some b => rw [download_icon_ok_exists env fs url filename c b hok hb]
    | none => rw [download_icon_ok_new env fs url filename c hok hb]
  · intro b hb
    rw [download_icon_ok_exists env fs url filename c b hok hb]
  · cases hb : lookupFS fs (computeLocalPath filename) with
    | some b =>
      rw [download_icon_ok_exists env fs url filename c b hok hb]
      rw [download_icon_ok_exists env fs url filename c b hok hb]
    | none =>
      rw [download_icon_ok_new env fs url filename c hok hb]
      have hb2 : lookupFS ((computeLocalPath filename, c) :: fs) (computeLocalPath filename)
          = some c := by simp [lookupFS]
      rw [download_icon_ok_exists env _ url filename c c hok hb2]
  · rw [download_icon_fetched, download_icon_fetched]
    rfl

/-- Witness for C1 (amended) at a concrete environment and filesystem. -/
theorem download_icon_fetch_behavior_witness :
    (download_icon (fun _ => FetchOutcome.resp true [1]) [] "u" "f.png").result
        = .ok (some (computeLocalPath "f.png")) ∧
    (download_icon (fun _ => FetchOutcome.resp true [1]) []  "u" "f.png").fetched.length +
      (download_icon (fun _ => FetchOutcome.resp true [1])
        (download_icon (fun _ => FetchOutcome.resp true [1]) [] "u" "f.png").fs
        "u" "f.png").fetched.length = 2 := by
  refine ⟨?_, ?_⟩
  · exact (download_icon_fetch_behavior (fun _ => FetchOutcome.resp true [1]) []
      "u" "f.png" [1] (by decide)).2.1
  · exact (download_icon_fetch_behavior (fun _ => FetchOutcome.resp true [1]) []
      "u" "f.png" [1] (by decide)).2.2.2.2

/-- Counterexample to C7 as stated: a raised transport exception (for example
a timeout) escapes `download_icon` instead of being returned as a no-path
result. -/
theorem download_icon_timeout_cex :
    (download_icon (fun _ => FetchOutcome.exc) [] "u" "f.png").result = .error () ∧
    (download_icon (fun _ => FetchOutcome.exc) [] "u" "f.png").result ≠ .ok none := by
  refine ⟨by decide, by decide⟩

/-- Helper: the selection test holds exactly when every required header occurs
among the discovered headers (the nonemptiness conjunct is implied, the
required set being nonempty). -/
theorem tableMatches_iff (t : HTable) :
    tableMatches t = true ↔ ∀ r ∈ requiredHeaders, r ∈ discoverHeaders t := by
  constructor
  · intro h r hr
    simp only [tableMatches, Bool.and_eq_true, List.all_eq_true] at h
    exact of_decide_eq_true (h.2 r hr)
  · intro h
    have hne : (discoverHeaders t).isEmpty = false := by
      have hm : "Name" ∈ discoverHeaders t := h "Name" (by decide)
      cases hd : discoverHeaders t with
      | nil => rw [hd] at hm; cases hm
      | cons a l => rfl
    simp only [tableMatches, Bool.and_eq_true, List.all_eq_true]
    exact ⟨by simp [hne], fun r hr => decide_eq_true (h r hr)⟩

/-- C2: `get_cards_table_soup` returns the first table in document order whose
discovered header set (thead, else first tbody row, else first row) contains
all six required names; a table lacking even one required header is never
selected; and when no table matches it fails hard (modelled as `none`, the
raised `RuntimeError`) instead of returning a table. -/
theorem get_cards_table_soup_correct (doc : List HTable) :
    (∀ t, get_cards_table_soup doc = some t →
       (∀ r ∈ requiredHeaders, r ∈ discoverHeaders t) ∧
       ∃ pre post, doc = pre ++ t :: post ∧
         ∀ u ∈ pre, ¬ (∀ r ∈ requiredHeaders, r ∈ discoverHeaders u)) ∧
    (∀ t r, r ∈ requiredHeaders → r ∉ discoverHeaders t →
       get_cards_table_soup doc ≠ some t) ∧
    (get_cards_table_soup doc = none ↔
       ∀ u ∈ doc, ∃ r ∈ requiredHeaders, r ∉ discoverHeaders u) := by
  have hmain : ∀ t, get_cards_table_soup doc = some t →
      (∀ r ∈ requiredHeaders, r ∈ discoverHeaders t) ∧
      ∃ pre post, doc = pre ++ t :: post ∧
        ∀ u ∈ pre, ¬ (∀ r ∈ requiredHeaders, r ∈ discoverHeaders u) := by
    intro t h
    rw [get_cards_table_soup, List.find?_eq_some] at h
    obtain ⟨hp, pre, post, hsplit, hpre⟩ := h
    refine ⟨(tableMatches_iff t).mp hp, pre, post, hsplit, ?_⟩
    intro u hu hall
    have := hpre u hu
    rw [(tableMatches_iff u).mpr hall] at this
    simp at this
  refine ⟨hmain, ?_, ?_⟩
  · intro t r hr hnot heq
    exact hnot ((hmain t heq).1 r hr)
  · rw [get_cards_table_soup, List.find?_eq_none]
    constructor
    · intro h u hu
      have := h u hu
      rw [tableMatches_iff] at this
      push_neg at this
      exact this
    · intro h u hu
      rw [tableMatches_iff]
      push_neg
      exact h u hu

/-- Witness for C2: a document whose only table misses `Max Skill(s)` makes
the locator fail, and a table missing a required header is never the result. -/
theorem get_cards_table_soup_correct_witness :
    get_cards_table_soup
        [⟨some ["Name", "Rarity", "Attribute", "Max Influence", "Max Defense"], none, none⟩]
        = none ∧
    get_cards_table_soup
        [⟨some ["Name", "Rarity", "Attribute", "Max Influence", "Max Defense"], none, none⟩,
         ⟨some ["Name", "Rarity", "Attribute", "Max Influence", "Max Defense", "Max Skill(s)"],
           none, none⟩]
        ≠ some ⟨some ["Name", "Rarity", "Attribute", "Max Influence", "Max Defense"],
            none, none⟩ := by
  constructor
  · exact (get_cards_table_soup_correct
      [⟨some ["Name", "Rarity", "Attribute", "Max Influence", "Max Defense"], none, none⟩]).2.2.mpr
      (by decide)
  · exact (get_cards_table_soup_correct _).2.1
      ⟨some ["Name", "Rarity", "Attribute", "Max Influence", "Max Defense"], none, none⟩
      "Max Skill(s)" (by decide) (by decide)

/-- Helper: `wsTakePy` splits off an all-whitespace prefix. -/
theorem wsTakePy_spec (l : List Char) :
    l = (wsTakePy l).1 ++ (wsTakePy l).2 ∧ ∀ c ∈ (wsTakePy l).1, pyIsSpace c = true := by
  induction l with
  | nil => exact ⟨rfl, fun c hc => absurd hc (by simp [wsTakePy])⟩
  | cons c cs ih =>
    by_cases h : pyIsSpace c = true
    · simp only [wsTakePy, h, if_pos]
      constructor
      · simpa using ih.1
      · intro d hd
        rcases List.mem_cons.mp hd with hd | hd
        · rw [hd]; exact h
        · exact ih.2 d hd
    · simp only [wsTakePy, h, Bool.false_eq_true, if_false]
      exact ⟨rfl, fun c hc => absurd hc (by simp)⟩

/-- Helper: a successful `findClose` decomposes its input as the second
capture group, the closing quote and an end-of-string tail. -/
theorem findClose_sound : ∀ (l g : List Char), findClose l = some g →
    ∃ t, (t = [] ∨ t = ['\n']) ∧ l = g ++ '"' :: t := by
  intro l
  induction l with
  | nil => intro g h; exact absurd h (by simp [findClose])
  | cons c cs ih =>
    intro g h
    cases cs with
    | nil =>
      by_cases hc : c = '"'
      · simp only [findClose, hc, if_pos] at h
        cases h
        exact ⟨[], Or.inl rfl, by rw [hc]; rfl⟩
      · simp [findClose, hc] at h
    | cons c2 rest =>
      rw [findClose] at h
      split at h
      · next hcond =>
        simp only [Bool.and_eq_true, decide_eq_true_eq, List.isEmpty_iff] at hcond
        cases h
        refine ⟨['\n'], Or.inr rfl, ?_⟩
        rw [hcond.1.1, hcond.1.2, hcond.2]
        rfl
      · split at h
        · exact absurd h (by simp)
        · next hnl =>
          rcases Option.map_eq_some'.mp h with ⟨g', hg', rfl⟩
          rcases ih g' hg' with ⟨t, ht, heq⟩
          exact ⟨t, ht, by rw [heq]; rfl⟩

/-- Helper: a successful match attempt at one position decomposes the input
as nonempty whitespace, the opening quote, the group, the closing quote and
an end tail. -/
theorem pnAttempt_sound (l g2 : List Char) (h : pnAttempt l = some g2) :
    ∃ w t, w ≠ [] ∧ (∀ c ∈ w, pyIsSpace c = true) ∧ (t = [] ∨ t = ['\n']) ∧
      l = w ++ '"' :: (g2 ++ '"' :: t) := by
  rw [pnAttempt] at h
  split at h
  · exact absurd h (by simp)
  · next hW =>
    split at h
    · next r3 hM =>
      rcases findClose_sound _ _ h with ⟨t, ht, hr3⟩
      refine ⟨(wsTakePy l).1, t, ?_, (wsTakePy_spec l).2, ht, ?_⟩
      · intro hnil
        rw [hnil] at hW
        exact hW rfl
      · have hl := (wsTakePy_spec l).1
        rw [hM, hr3] at hl
        exact hl
    · exact absurd h (by simp)

/-- Helper: a successful `pnSearch` decomposes the whole input according to
the pattern, the first group extending the accumulator. -/
theorem pnSearch_sound : ∀ (l acc g1 g2 : List Char), pnSearch acc l = some (g1, g2) →
    ∃ p w t, g1 = acc ++ p ∧ w ≠ [] ∧ (∀ c ∈ w, pyIsSpace c = true) ∧
      (t = [] ∨ t = ['\n']) ∧ l = p ++ (w ++ '"' :: (g2 ++ '"' :: t)) := by
  intro l
  induction l with
  | nil => intro acc g1 g2 h; exact absurd h (by simp [pnSearch])
  | cons c cs ih =>
    intro acc g1 g2 h
    rw [pnSearch] at h
    split at h
    · next g hA =>
      cases h
      rcases pnAttempt_sound _ _ hA with ⟨w, t, hw, hws, ht, hdec⟩
      exact ⟨[], w, t, by simp, hw, hws, ht, hdec⟩
    · split at h
      · exact absurd h (by simp)
      · next hnl =>
        rcases ih (acc ++ [c]) g1 g2 h with ⟨p, w, t, hg1, hw, hws, ht, hdec⟩
        refine ⟨c :: p, w, t, ?_, hw, hws, ht, ?_⟩
        · rw [hg1, List.append_assoc]
          rfl
        · rw [List.cons_append, ← hdec]

/-- Helper: a quote-free list is returned whole by `splitQuote`. -/
theorem splitQuote_no_quote : ∀ (l : List Char), (∀ c ∈ l, c ≠ '"') →
    splitQuote l = [l] := by
  intro l
  induction l with
  | nil => intro _; rfl
  | cons c cs ih =>
    intro h
    have hc : ¬ c = '"' := h c (List.mem_cons_self c cs)
    rw [splitQuote, ih (fun d hd => h d (List.mem_cons_of_mem c hd))]
    simp [hc]

/-- Helper: the regex never matches a quote-free input. -/
theorem pnSearch_none_of_no_quote (l acc : List Char) (h : ∀ c ∈ l, c ≠ '"') :
    pnSearch acc l = none := by
  cases hs : pnSearch acc l with
  | none => rfl
  | some r =>
    rcases pnSearch_sound l acc r.1 r.2 (by rw [hs]) with ⟨p, w, t, _, _, _, _, hdec⟩
    have hq : '"' ∈ l := by
      rw [hdec]
      simp
    exact absurd rfl (h '"' hq)

/-- Counterexample to C4 as stated: with two trailing quoted segments the
source's lazy regex takes the FIRST quote preceded by whitespace as the
opening quote, so the title spans from there to the final quote (and the
prefix keeps its leading whitespace untrimmed), whereas the claim's
last-pair-of-quotes reading yields a different split. -/
theorem parse_name_last_quotes_cex :
    parse_name "A \"b\" \"c\"" = ("A", "b\" \"c") ∧
    parse_name_claim "A \"b\" \"c\"" = ("A \"b\"", "c") ∧
    parse_name "A \"b\" \"c\"" ≠ parse_name_claim "A \"b\" \"c\"" := by
  refine ⟨by decide, by decide, by decide⟩

/-- C4 (amended): when the input can be split as prefix, nonempty whitespace,
a double quote, a (possibly quote-containing) span and a final double quote
ending the string (or followed only by a terminal newline), `parse_name`
returns the untrimmed prefix — chosen by the regex engine's lazy scan — and
that span; on `Aladdin "Prince of Thieves"` this gives
`("Aladdin", "Prince of Thieves")`; if the regex does not match, it falls
back to splitting on quote characters with both pieces stripped, and an input
with no quote at all gets its stripped self as character and an empty title. -/
theorem parse_name_behavior :
    parse_name "Aladdin \"Prince of Thieves\"" = ("Aladdin", "Prince of Thieves") ∧
    (∀ (s : String) (g1 g2 : List Char), pnSearch [] s.data = some (g1, g2) →
       parse_name s = (⟨g1⟩, ⟨g2⟩) ∧
       ∃ w t, w ≠ [] ∧ (∀ c ∈ w, pyIsSpace c = true) ∧ (t = [] ∨ t = ['\n']) ∧
         s.data = g1 ++ (w ++ '"' :: (g2 ++ '"' :: t))) ∧
    (∀ (s : String), (∀ c ∈ s.data, c ≠ '"') →
       parse_name s = (⟨pyStripL s.data⟩, "")) := by
  refine ⟨by decide, ?_, ?_⟩
  · intro s g1 g2 h
    constructor
    · rw [parse_name, parseNameL, h]
    · rcases pnSearch_sound s.data [] g1 g2 h with ⟨p, w, t, hg1, hw, hws, ht, hdec⟩
      rw [List.nil_append] at hg1
      exact ⟨w, t, hw, hws, ht, by rw [hdec, hg1]⟩
  · intro s h
    rw [parse_name, parseNameL, pnSearch_none_of_no_quote s.data [] h,
      splitQuote_no_quote s.data h]
    rfl

/-- Witness for C4 (amended), applying the decomposition at a matching input
and the fallback at a quote-free input. -/
theorem parse_name_behavior_witness :
    parse_name "A \"b\"" = ("A", "b") ∧
    (∃ w t, w ≠ [] ∧ (∀ c ∈ w, pyIsSpace c = true) ∧ (t = [] ∨ t = ['\n']) ∧
       ("A \"b\"" : String).data = ['A'] ++ (w ++ '"' :: (['b'] ++ '"' :: t))) ∧
    parse_name " xy " = ("xy", "") := by
  have h2 := parse_name_behavior.2.1 "A \"b\"" ['A'] ['b'] (by decide)
  have h3 := parse_name_behavior.2.2 " xy " (by decide)
  exact ⟨h2.1, h2.2, h3.trans (by decide)⟩

/-- Helper: a header absent from the list has no index. -/
theorem lastIdxAux_none : ∀ (hs : List String) (h : String) (n : Nat), h ∉ hs →
    lastIdxAux hs h n = none := by
  intro hs
  induction hs with
  | nil => intro h n _; rfl
  | cons x xs ih =>
    intro h n hmem
    rw [lastIdxAux, ih h (n + 1) (fun hx => hmem (List.mem_cons_of_mem x hx))]
    have hx : ¬ x = h := fun he => hmem (he ▸ List.mem_cons_self x xs)
    simp [hx]

/-- Helper: a present header gets an index within bounds (the last
occurrence, as in the Python dict comprehension). -/
theorem lastIdxAux_mem : ∀ (hs : List String) (h : String) (n : Nat), h ∈ hs →
    ∃ i, lastIdxAux hs h n = some i ∧ n ≤ i ∧ i < n + hs.length := by
  intro hs
  induction hs with
  | nil => intro h n hmem; cases hmem
  | cons x xs ih =>
    intro h n hmem
    by_cases hmx : h ∈ xs
    · rcases ih h (n + 1) hmx with ⟨i, hi, hle, hlt⟩
      refine ⟨i, ?_, by omega, by simp; omega⟩
      rw [lastIdxAux, hi]
    · have hx : x = h := by
        rcases List.mem_cons.mp hmem with he | hx
        · exact he.symm
        · exact absurd hx hmx
      refine ⟨n, ?_, Nat.le_refl n, by simp⟩
      rw [lastIdxAux, lastIdxAux_none xs h (n + 1) hmx]
      simp [hx]

/-- Helper: `idxOf` finds a present header at an in-bounds position. -/
theorem idxOf_mem (hs : List String) (h : String) (hmem : h ∈ hs) :
    ∃ i, idxOf hs h = some i ∧ i < hs.length := by
  rcases lastIdxAux_mem hs h 0 hmem with ⟨i, hi, _, hlt⟩
  exact ⟨i, hi, by omega⟩

/-- Helper: on duplicate-free headers the dict size equals the list length. -/
theorem distinctCount_nodup : ∀ (l : List String), l.Nodup → distinctCount l = l.length := by
  intro l
  induction l with
  | nil => intro _; rfl
  | cons x xs ih =>
    intro h
    rw [List.nodup_cons] at h
    rw [distinctCount, ih h.2, if_neg h.1]
    simp [Nat.add_comm]

/-- Helper: the dict size is the number of distinct headers. -/
theorem distinctCount_eq_dedup : ∀ (l : List String), distinctCount l = l.dedup.length := by
  intro l
  induction l with
  | nil => rfl
  | cons x xs ih =>
    by_cases h : x ∈ xs
    · rw [distinctCount, List.dedup_cons_of_mem h, ih, if_pos h]
      simp
    · rw [distinctCount, List.dedup_cons_of_not_mem h, ih, if_neg h]
      simp [Nat.add_comm]

/-- Helper: six required headers all present force at least six distinct
headers. -/
theorem required_le_distinctCount (headers : List String)
    (hreq : ∀ r ∈ requiredHeaders, r ∈ headers) :
    requiredHeaders.length ≤ distinctCount headers := by
  rw [distinctCount_eq_dedup]
  have hsub : requiredHeaders ⊆ headers.dedup :=
    fun r hr => List.mem_dedup.mpr (hreq r hr)
  have hnd : requiredHeaders.Nodup := by decide
  exact (hnd.subperm hsub).length_le

/-- Helper: in-bounds cell access succeeds. -/
theorem getCell_ok (tds : List SCell) (i : Nat) (h : i < tds.length) :
    ∃ c, getCell tds (some i) = .ok c := by
  have hc : tds.get? i = some (tds.get ⟨i, h⟩) := List.get?_eq_get h
  exact ⟨tds.get ⟨i, h⟩, by rw [getCell, hc]⟩

/-- Helper: a short row is skipped before any cell access. -/
theorem processRow_guard (uj : String → String → String) (env : String → FetchOutcome)
    (headers : List String) (fs : FS) (tds : List SCell)
    (h : tds.length < distinctCount headers) :
    processRow uj env headers fs tds = .ok (none, fs) := by
  rw [processRow, if_pos h]

/-- Helper: with all four cell accesses succeeding and a nonempty card title,
the row loop body reduces to the icon step followed by record construction. -/
theorem processRow_run (uj : String → String → String) (env : String → FetchOutcome)
    (headers : List String) (fs : FS) (tds : List SCell)
    (nameCell rarityCell attrCell skillCell : SCell)
    (hguard : ¬ tds.length < distinctCount headers)
    (h1 : getCell tds (idxOf headers "Name") = .ok nameCell)
    (hcard : ¬ (parse_name nameCell.text).2 = "")
    (h2 : getCell tds (idxOf headers "Rarity") = .ok rarityCell)
    (h3 : getCell tds (idxOf headers "Attribute") = .ok attrCell)
    (h4 : getCell tds (idxOf headers "Max Skill(s)") = .ok skillCell) :
    processRow uj env headers fs tds =
      match iconStep uj env fs nameCell (parse_name nameCell.text).1
          (parse_name nameCell.text).2 with
      | .error e => .error e
      | .ok (iu, lp, fs2) =>
        .ok (some
          { cardName := (parse_name nameCell.text).2
            character := (parse_name nameCell.text).1
            rarity := rarity_from_cell rarityCell
            attributeText := attrCell.text
            firstSkill := extract_first_skill skillCell
            firstSkillIcon := extract_first_skill_icon (extract_first_skill skillCell)
            firstSkillDisplayName :=
              extract_first_skill_display_name (extract_first_skill skillCell)
            iconUrl := iu
            localIconPath := lp }, fs2) := by
  rw [processRow, if_neg hguard, h1]
  simp only [if_neg hcard]
  rw [h2, h3, h4]

/-- Helper: when the environment raises no exception the icon step returns
normally. -/
theorem iconStep_no_exc (uj : String → String → String) (env : String → FetchOutcome)
    (fs : FS) (nameCell : SCell) (character card : String)
    (henv : ∀ u, env u ≠ FetchOutcome.exc) :
    ∃ iu lp fs2, iconStep uj env fs nameCell character card = .ok (iu, lp, fs2) := by
  cases himg : nameCell.img with
  | none =>
    simp only [iconStep, himg]
    exact ⟨none, none, fs, rfl⟩
  | some img =>
    cases hsrc : img.src with
    | none =>
      simp only [iconStep, himg, hsrc]
      exact ⟨none, none, fs, rfl⟩
    | some s =>
      simp only [iconStep, himg, hsrc]
      by_cases hs : s = ""
      · exact ⟨none, none, fs, by simp [hs]⟩
      · simp only [if_neg hs]
        cases he : env (addWidth (uj pageURL s)) with
        | exc => exact absurd he (henv _)
        | resp ok content =>
          cases ok with
          | false =>
            rw [download_icon_notok env fs (uj pageURL s) _ content he]
            exact ⟨some (uj pageURL s), none, fs, rfl⟩
          | true =>
            cases hb : lookupFS fs (computeLocalPath (safeName character card)) with
            | some b =>
              rw [download_icon_ok_exists env fs (uj pageURL s) _ content b he hb]
              exact ⟨some (uj pageURL s), some (computeLocalPath (safeName character card)),
                fs, rfl⟩
            | none =>
              rw [download_icon_ok_new env fs (uj pageURL s) _ content he hb]
              exact ⟨some (uj pageURL s), some (computeLocalPath (safeName character card)),
                (computeLocalPath (safeName character card), content) :: fs, rfl⟩

/-- Helper: a non-ok response makes the icon step succeed with no local path
and an unchanged filesystem. -/
theorem iconStep_notok (uj : String → String → String) (env : String → FetchOutcome)
    (fs : FS) (nameCell : SCell) (character card : String) (img : Img) (s : String)
    (c : List Nat) (himg : nameCell.img = some img) (hsrc : img.src = some s)
    (hs : ¬ s = "") (he : env (addWidth (uj pageURL s)) = FetchOutcome.resp false c) :
    iconStep uj env fs nameCell character card = .ok (some (uj pageURL s), none, fs) := by
  simp only [iconStep, himg, hsrc, if_neg hs]
  rw [download_icon_notok env fs (uj pageURL s) _ c he]

/-- Helper: a raised exception during the icon fetch escapes the icon step. -/
theorem iconStep_exc (uj : String → String → String) (env : String → FetchOutcome)
    (fs : FS) (nameCell : SCell) (character card : String) (img : Img) (s : String)
    (himg : nameCell.img = some img) (hsrc : img.src = some s)
    (hs : ¬ s = "") (he : env (addWidth (uj pageURL s)) = FetchOutcome.exc) :
    iconStep uj env fs nameCell character card = .error () := by
  simp only [iconStep, himg, hsrc, if_neg hs]
  rw [download_icon_exc env fs (uj pageURL s) _ he]

/-- Counterexample to C3 as stated: in a matched table with one extra column
(seven distinct headers), a well-formed row with six cells — as many as the
number of required columns — and a non-empty card title yields ZERO records,
because the code compares the cell count against the header-dict size, not
against the number of required columns. -/
theorem row_min_cellcount_cex :
    requiredHeaders.length = 6 ∧
    (List.replicate 6 (⟨"A \"b\"", none, none⟩ : SCell)).length = requiredHeaders.length ∧
    (parse_name "A \"b\"").2 = "b" ∧
    processRow (fun _ s => s) (fun _ => FetchOutcome.resp true [])
      ["Name", "Rarity", "Attribute", "Max Influence", "Max Defense", "Max Skill(s)", "Extra"]
      [] (List.replicate 6 (⟨"A \"b\"", none, none⟩ : SCell)) = .ok (none, []) := by
  refine ⟨by decide, by decide, by decide, by decide⟩

/-- C3 (amended): a row with fewer cells than the number of required columns
yields zero records and does not raise; and — when the located table's
headers are pairwise distinct and the fetch environment raises no exception —
every row with at least as many cells as headers and a non-empty card title
yields exactly one record, whose card name is that non-empty title. -/
theorem processRow_skip_and_emit (uj : String → String → String)
    (env : String → FetchOutcome) (headers : List String) (fs : FS) (tds : List SCell)
    (hreq : ∀ r ∈ requiredHeaders, r ∈ headers) :
    (tds.length < requiredHeaders.length →
       processRow uj env headers fs tds = .ok (none, fs)) ∧
    (headers.Nodup → headers.length ≤ tds.length → (∀ u, env u ≠ FetchOutcome.exc) →
       ∀ i nameCell, idxOf headers "Name" = some i → tds.get? i = some nameCell →
         (parse_name nameCell.text).2 ≠ "" →
         ∃ rec fs2, processRow uj env headers fs tds = .ok (some rec, fs2) ∧
           rec.cardName = (parse_name nameCell.text).2 ∧ rec.cardName ≠ "") := by
  constructor
  · intro h
    exact processRow_guard uj env headers fs tds
      (Nat.lt_of_lt_of_le h (required_le_distinctCount headers hreq))
  · intro hnd hlen henv i nameCell hidx hget hcard
    have hguard : ¬ tds.length < distinctCount headers := by
      rw [distinctCount_nodup headers hnd]
      omega
    have h1 : getCell tds (idxOf headers "Name") = .ok nameCell := by
      rw [hidx, getCell, hget]
    obtain ⟨i2, hidx2, hlt2⟩ := idxOf_mem headers "Rarity" (hreq "Rarity" (by decide))
    obtain ⟨c2, hc2⟩ := getCell_ok tds i2 (Nat.lt_of_lt_of_le hlt2 hlen)
    have h2 : getCell tds (idxOf headers "Rarity") = .ok c2 := by rw [hidx2]; exact hc2
    obtain ⟨i3, hidx3, hlt3⟩ := idxOf_mem headers "Attribute" (hreq "Attribute" (by decide))
    obtain ⟨c3, hc3⟩ := getCell_ok tds i3 (Nat.lt_of_lt_of_le hlt3 hlen)
    have h3 : getCell tds (idxOf headers "Attribute") = .ok c3 := by rw [hidx3]; exact hc3
    obtain ⟨i4, hidx4, hlt4⟩ := idxOf_mem headers "Max Skill(s)"
      (hreq "Max Skill(s)" (by decide))
    obtain ⟨c4, hc4⟩ := getCell_ok tds i4 (Nat.lt_of_lt_of_le hlt4 hlen)
    have h4 : getCell tds (idxOf headers "Max Skill(s)") = .ok c4 := by rw [hidx4]; exact hc4
    obtain ⟨iu, lp, fs2, hicon⟩ := iconStep_no_exc uj env fs nameCell
      (parse_name nameCell.text).1 (parse_name nameCell.text).2 henv
    refine ⟨{ cardName := (parse_name nameCell.text).2
              character := (parse_name nameCell.text).1
              rarity := rarity_from_cell c2
              attributeText := c3.text
              firstSkill := extract_first_skill c4
              firstSkillIcon := extract_first_skill_icon (extract_first_skill c4)
              firstSkillDisplayName :=
                extract_first_skill_display_name (extract_first_skill c4)
              iconUrl := iu
              localIconPath := lp }, fs2, ?_, rfl, hcard⟩
    rw [processRow_run uj env headers fs tds nameCell c2 c3 c4 hguard h1 hcard h2 h3 h4,
      hicon]

/-- Witness for C3 (amended): the empty row is skipped without a record; a
six-cell row against the six required headers emits one record named `b`. -/
theorem processRow_skip_and_emit_witness :
    processRow (fun _ s => s) (fun _ => FetchOutcome.resp true []) requiredHeaders [] []
        = .ok (none, []) ∧
    (∃ rec fs2, processRow (fun _ s => s) (fun _ => FetchOutcome.resp true [])
        requiredHeaders [] (List.replicate 6 (⟨"A \"b\"", none, none⟩ : SCell))
        = .ok (some rec, fs2) ∧
      rec.cardName = (parse_name (⟨"A \"b\"", none, none⟩ : SCell).text).2 ∧
      rec.cardName ≠ "") := by
  constructor
  · exact (processRow_skip_and_emit (fun _ s => s) (fun _ => FetchOutcome.resp true [])
      requiredHeaders [] [] (by decide)).1 (by decide)
  · exact (processRow_skip_and_emit (fun _ s => s) (fun _ => FetchOutcome.resp true [])
      requiredHeaders [] (List.replicate 6 (⟨"A \"b\"", none, none⟩ : SCell))
      (by decide)).2 (by decide) (by decide) (fun u => by decide)
      0 ⟨"A \"b\"", none, none⟩ (by decide) (by decide) (by decide)

/-- C7 (amended): on an HTTP-level failure — the request completes but the
response is not ok — `download_icon` returns the explicit no-path result with
the filesystem untouched, and in the row loop this only leaves that record's
icon field empty while the record is still emitted; but an exception raised
by the request itself (for example a timeout) is not caught: it escapes
`download_icon` and aborts the row loop. -/
theorem download_icon_failure_behavior :
    (∀ (env : String → FetchOutcome) (fs : FS) (url fn : String) (c : List Nat),
       env (addWidth url) = FetchOutcome.resp false c →
       download_icon env fs url fn = ⟨.ok none, fs, [addWidth url]⟩) ∧
    (∀ (uj : String → String → String) (env : String → FetchOutcome)
       (headers : List String) (fs : FS) (tds : List SCell)
       (i : Nat) (nameCell : SCell) (img : Img) (s : String) (c : List Nat),
       (∀ r ∈ requiredHeaders, r ∈ headers) → headers.Nodup →
       headers.length ≤ tds.length →
       idxOf headers "Name" = some i → tds.get? i = some nameCell →
       (parse_name nameCell.text).2 ≠ "" →
       nameCell.img = some img → img.src = some s → s ≠ "" →
       env (addWidth (uj pageURL s)) = FetchOutcome.resp false c →
       ∃ rec, processRow uj env headers fs tds = .ok (some rec, fs) ∧
         rec.localIconPath = none ∧ rec.iconUrl = some (uj pageURL s) ∧
         rec.cardName = (parse_name nameCell.text).2) ∧
    (∀ (uj : String → String → String) (env : String → FetchOutcome)
       (headers : List String) (fs : FS) (tds : List SCell)
       (i : Nat) (nameCell : SCell) (img : Img) (s : String),
       (∀ r ∈ requiredHeaders, r ∈ headers) → headers.Nodup →
       headers.length ≤ tds.length →
       idxOf headers "Name" = some i → tds.get? i = some nameCell →
       (parse_name nameCell.text).2 ≠ "" →
       nameCell.img = some img → img.src = some s → s ≠ "" →
       env (addWidth (uj pageURL s)) = FetchOutcome.exc →
       processRow uj env headers fs tds = .error ()) := by
  refine ⟨download_icon_notok, ?_, ?_⟩
  · intro uj env headers fs tds i nameCell img s c hreq hnd hlen hidx hget hcard
      himg hsrc hs he
    have hguard : ¬ tds.length < distinctCount headers := by
      rw [distinctCount_nodup headers hnd]
      omega
    have h1 : getCell tds (idxOf headers "Name") = .ok nameCell := by
      rw [hidx, getCell, hget]
    obtain ⟨i2, hidx2, hlt2⟩ := idxOf_mem headers "Rarity" (hreq "Rarity" (by decide))
    obtain ⟨c2, hc2⟩ := getCell_ok tds i2 (Nat.lt_of_lt_of_le hlt2 hlen)
    have h2 : getCell tds (idxOf headers "Rarity") = .ok c2 := by rw [hidx2]; exact hc2
    obtain ⟨i3, hidx3, hlt3⟩ := idxOf_mem headers "Attribute" (hreq "Attribute" (by decide))
    obtain ⟨c3, hc3⟩ := getCell_ok tds i3 (Nat.lt_of_lt_of_le hlt3 hlen)
    have h3 : getCell tds (idxOf headers "Attribute") = .ok c3 := by rw [hidx3]; exact hc3
    obtain ⟨i4, hidx4, hlt4⟩ := idxOf_mem headers "Max Skill(s)"
      (hreq "Max Skill(s)" (by decide))
    obtain ⟨c4, hc4⟩ := getCell_ok tds i4 (Nat.lt_of_lt_of_le hlt4 hlen)
    have h4 : getCell tds (idxOf headers "Max Skill(s)") = .ok c4 := by rw [hidx4]; exact hc4
    have hicon := iconStep_notok uj env fs nameCell (parse_name nameCell.text).1
      (parse_name nameCell.text).2 img s c himg hsrc hs he
    refine ⟨{ cardName := (parse_name nameCell.text).2
              character := (parse_name nameCell.text).1
              rarity := rarity_from_cell c2
              attributeText := c3.text
              firstSkill := extract_first_skill c4
              firstSkillIcon := extract_first_skill_icon (extract_first_skill c4)
              firstSkillDisplayName :=
                extract_first_skill_display_name (extract_first_skill c4)
              iconUrl := some (uj pageURL s)
              localIconPath := none }, ?_, rfl, rfl, rfl⟩
    rw [processRow_run uj env headers fs tds nameCell c2 c3 c4 hguard h1 hcard h2 h3 h4,
      hicon]
  · intro uj env headers fs tds i nameCell img s hreq hnd hlen hidx hget hcard
      himg hsrc hs he
    have hguard : ¬ tds.length < distinctCount headers := by
      rw [distinctCount_nodup headers hnd]
      omega
    have h1 : getCell tds (idxOf headers "Name") = .ok nameCell := by
      rw [hidx, getCell, hget]
    obtain ⟨i2, hidx2, hlt2⟩ := idxOf_mem headers "Rarity" (hreq "Rarity" (by decide))
    obtain ⟨c2, hc2⟩ := getCell_ok tds i2 (Nat.lt_of_lt_of_le hlt2 hlen)
    have h2 : getCell tds (idxOf headers "Rarity") = .ok c2 := by rw [hidx2]; exact hc2
    obtain ⟨i3, hidx3, hlt3⟩ := idxOf_mem headers "Attribute" (hreq "Attribute" (by decide))
    obtain ⟨c3, hc3⟩ := getCell_ok tds i3 (Nat.lt_of_lt_of_le hlt3 hlen)
    have h3 : getCell tds (idxOf headers "Attribute") = .ok c3 := by rw [hidx3]; exact hc3
    obtain ⟨i4, hidx4, hlt4⟩ := idxOf_mem headers "Max Skill(s)"
      (hreq "Max Skill(s)" (by decide))
    obtain ⟨c4, hc4⟩ := getCell_ok tds i4 (Nat.lt_of_lt_of_le hlt4 hlen)
    have h4 : getCell tds (idxOf headers "Max Skill(s)") = .ok c4 := by rw [hidx4]; exact hc4
    have hicon := iconStep_exc uj env fs nameCell (parse_name nameCell.text).1
      (parse_name nameCell.text).2 img s himg hsrc hs he
    rw [processRow_run uj env headers fs tds nameCell c2 c3 c4 hguard h1 hcard h2 h3 h4,
      hicon]

/-- Witness for C7 (amended): with a concrete row whose Name cell carries an
icon and an environment answering a non-ok response, the record is still
emitted with an empty local icon path; `download_icon` itself returns the
no-path result. -/
theorem download_icon_failure_behavior_witness :
    download_icon (fun _ => FetchOutcome.resp false []) [] "u" "f.png"
        = ⟨.ok none, [], ["u?width=50"]⟩ ∧
    (∃ rec, processRow (fun _ s => s) (fun _ => FetchOutcome.resp false [])
        requiredHeaders []
        (List.replicate 6 (⟨"A \"b\"", some ⟨none, some "i.png"⟩, none⟩ : SCell))
        = .ok (some rec, []) ∧
      rec.localIconPath = none ∧ rec.iconUrl = some ((fun _ s => s) pageURL "i.png") ∧
      rec.cardName = (parse_name (⟨"A \"b\"", some ⟨none, some "i.png"⟩, none⟩ : SCell).text).2) := by
  constructor
  · exact download_icon_failure_behavior.1 (fun _ => FetchOutcome.resp false [])
      [] "u" "f.png" [] (by decide)
  · exact download_icon_failure_behavior.2.1 (fun _ s => s)
      (fun _ => FetchOutcome.resp false []) requiredHeaders []
      (List.replicate 6 (⟨"A \"b\"", some ⟨none, some "i.png"⟩, none⟩ : SCell))
      0 ⟨"A \"b\"", some ⟨none, some "i.png"⟩, none⟩ ⟨none, some "i.png"⟩ "i.png" []
      (by decide) (by decide) (by decide) (by decide) (by decide) (by decide)
      (by decide) (by decide) (by decide) (by decide)
